import Mathlib

/-!
Verification development for the LASIF core: the events metadata cache
(`lasif/components/events.py`) and the project orchestrator functions
(`lasif/components/project.py`).

The Python code is shallowly embedded: Python dicts become association
lists with Python's assignment semantics (overwrite in place, append new
keys at the end), Python exceptions become an explicit error type
threaded through `Except`, and the filesystem contents of the events
folder become an explicit list of file basenames.  The injected
extraction function (`_extract_index_values_quakeml`, whose body is
HDF5/ObsPy I/O) is a parameter `extract : String → List PyVal`, exactly
the "injected pure function path → ordered values" role it plays in the
code.
-/

/-- Model of the Python scalar values appearing in event records: strings,
numbers (floats abstracted as integers, no arithmetic is performed on
them), and `obspy.UTCDateTime` applied to a value. -/
inductive PyVal where
  | str : String → PyVal
  | num : Int → PyVal
  | utc : PyVal → PyVal
  deriving DecidableEq

/-- A Python dict with string keys, as an association list in insertion
order. -/
abbrev PyDict := List (String × PyVal)

/-- The Python exceptions relevant to the embedded code. -/
inductive PyErr where
  | keyError : String → PyErr
  | typeError : PyErr
  | lasifNotFound : PyErr
  | lasifError : PyErr
  deriving DecidableEq

/-- Python dict lookup `d[k]` (as an `Option`): first binding of `k`.
Dicts built by `dictSet` have at most one binding per key. -/
def dictGet? {α : Type} : List (String × α) → String → Option α
  | [], _ => none
  | p :: d, k => if p.1 = k then some p.2 else dictGet? d k

/-- Python dict assignment `d[k] = v`: overwrite the binding in place if
the key is present, otherwise append the new binding at the end. -/
def dictSet {α : Type} : List (String × α) → String → α → List (String × α)
  | [], k, v => [(k, v)]
  | p :: d, k, v => if p.1 = k then (k, v) :: d else p :: dictSet d k v

/-- Python `d.keys()` in insertion order. -/
def dictKeys {α : Type} (d : List (String × α)) : List String := d.map (·.1)

/-- Code-point comparison of strings as lists of characters: Python's
lexicographic `<=` on `str`. -/
def charListLe : List Char → List Char → Bool
  | [], _ => true
  | _ :: _, [] => false
  | a :: as, b :: bs =>
    if a.toNat = b.toNat then charListLe as bs
    else decide (a.toNat < b.toNat)

/-- Python `a <= b` on strings. -/
def strLe (a b : String) : Bool := charListLe a.data b.data

/-- Insert into a list sorted by `strLe`. -/
def insertSorted (a : String) : List String → List String
  | [] => [a]
  | b :: bs => if strLe a b then a :: b :: bs else b :: insertSorted a bs

/-- Python `sorted` on a list of strings (insertion sort; Python's sort
is a different algorithm but computes the same ascending ordering). -/
def sortStrings (l : List String) : List String := l.foldr insertSorted []

/-- `os.path.basename`: the part of a path after the last `/`. -/
def basename (p : String) : String :=
  String.mk ((p.data.reverse.takeWhile (fun c => !(c == '/'))).reverse)

/-- The root part of `os.path.splitext`: everything before the last `.`,
or the whole name when it has no dot.  (The `os.path` special case for
names beginning with a dot never arises here because `glob` skips hidden
files.) -/
def splitextRoot (s : String) : String :=
  if s.data.contains '.' then
    String.mk (((s.data.reverse.dropWhile (fun c => !(c == '.'))).drop 1).reverse)
  else s

/-- Python `suffix in s` would need full substring search; here only
`endswith`-style checks are required for the glob pattern. -/
def strEndsWith (s suffix : String) : Bool :=
  suffix.data.reverse.isPrefixOf s.data.reverse

/-- `s.startswith(c)` on char lists. -/
def strStartsWith (s start : String) : Bool :=
  start.data.isPrefixOf s.data

/-- `glob.glob(os.path.join(folder, '*.h5'))` over a folder whose
contents are the basenames `fs`: every non-hidden file ending in `.h5`,
returned as a full path `folder/<name>`. -/
def globH5 (folder : String) (fs : List String) : List String :=
  (fs.filter (fun b => strEndsWith b ".h5" && !(strStartsWith b "."))).map
    (fun b => folder ++ "/" ++ b)

/-- `EventsComponent.index_values` from `events.py`. -/
def index_values : List String :=
  ["filename", "event_name", "latitude", "longitude", "depth_in_km",
   "origin_time", "m_rr", "m_pp", "m_tt", "m_rp", "m_rt", "m_tp",
   "magnitude", "magnitude_type", "region"]

/-- The mutable state of an `EventsComponent`: the folder, the
`all_events` key→file dict, the `__event_info_cache` key→record dict,
and (instrumentation for the memoization property) the log of file paths
on which the extraction function has been invoked. -/
structure EvState where
  folder : String
  all_events : List (String × String)
  event_info_cache : List (String × PyDict)
  parseLog : List String
  deriving DecidableEq

/-- An argument to `get`/`has_event`: Python callers pass either the
event name (a string) or a previously returned event record (a dict). -/
inductive EventArg where
  | name : String → EventArg
  | record : PyDict → EventArg
  deriving DecidableEq

/-- Result of the `try: event_name = event_name["event_name"] except
(KeyError, TypeError): pass` normalization: either a hashable Python
value to be used as the lookup key, or still the dict itself (when the
dict lacks the `event_name` field the `KeyError` is swallowed and the
unhashable dict remains the key). -/
inductive KeyProbe where
  | val : PyVal → KeyProbe
  | unhashable : PyDict → KeyProbe
  deriving DecidableEq

/-- The normalization step shared by `get` and `has_event`.  Subscripting
a string raises `TypeError` (caught), a dict with the field yields the
field's value, a dict without it raises `KeyError` (caught). -/
def resolveEventName : EventArg → KeyProbe
  | .name s => .val (.str s)
  | .record d =>
    match dictGet? d "event_name" with
    | some v => .val v
    | none => .unhashable d

namespace EventsComponent

/-- `EventsComponent.fill_all_events`: glob the folder and, for each
file, assign `all_events[event_name] = file`.  The dict is not cleared
first, so keys of vanished files persist. -/
def fill_all_events (fs : List String) (st : EvState) : EvState :=
  let updated := (globH5 st.folder fs).foldl
    (fun m file => dictSet m (splitextRoot (basename file)) file) st.all_events
  { st with all_events := updated }

/-- `EventsComponent.__init__` restricted to the cache state: empty
caches, then `fill_all_events`. -/
def init (folder : String) (fs : List String) : EvState :=
  fill_all_events fs
    { folder := folder, all_events := [], event_info_cache := [], parseLog := [] }

/-- `EventsComponent.count`: `len(self.all_events)`. -/
def count (st : EvState) : Nat := st.all_events.length

/-- `EventsComponent.has_event`: normalize the argument, then test
membership in `all_events`.  Membership with an unhashable dict key
raises `TypeError`; a hashable non-string value is simply not among the
string keys. -/
def has_event (st : EvState) (arg : EventArg) : Except PyErr Bool :=
  match resolveEventName arg with
  | .unhashable _ => .error .typeError
  | .val (.str s) => .ok ((dictGet? st.all_events s).isSome)
  | .val _ => .ok false

/-- `EventsComponent.get`: normalize the argument; raise
`LASIFNotFoundError` when the key is not in `all_events`; on a cache
miss call the extraction function on the file, build
`dict(zip(self.index_values, ...))`, wrap `origin_time` in
`UTCDateTime`, store the record in the cache; return the cached
record.  The invocation of the extraction function is recorded in
`parseLog`. -/
def get (extract : String → List PyVal) (st : EvState) (arg : EventArg) :
    EvState × Except PyErr PyDict :=
  match resolveEventName arg with
  | .unhashable _ => (st, .error .typeError)
  | .val (.num _) => (st, .error .lasifNotFound)
  | .val (.utc _) => (st, .error .lasifNotFound)
  | .val (.str event_name) =>
    match dictGet? st.all_events event_name with
    | none => (st, .error .lasifNotFound)
    | some path =>
      match dictGet? st.event_info_cache event_name with
      | some r => (st, .ok r)
      | none =>
        let raw := List.zip index_values (extract path)
        let st1 : EvState := { st with parseLog := st.parseLog ++ [path] }
        match dictGet? raw "origin_time" with
        | none => (st1, .error (.keyError "origin_time"))
        | some t =>
          let values := dictSet raw "origin_time" (.utc t)
          ({ st1 with
              event_info_cache := dictSet st1.event_info_cache event_name values },
           .ok values)

/-- The loop body of `EventsComponent.update_cache`: for each globbed
file, `self.get(event_name)`; an exception from `get` propagates. -/
def update_cache_loop (extract : String → List PyVal) :
    EvState → List String → EvState × Except PyErr Unit
  | st, [] => (st, .ok ())
  | st, f :: rest =>
    match get extract st (.name (splitextRoot (basename f))) with
    | (st1, .ok _) => update_cache_loop extract st1 rest
    | (st1, .error e) => (st1, .error e)

/-- `EventsComponent.update_cache`: glob the folder and `get` every
derived event name. -/
def update_cache (extract : String → List PyVal) (fs : List String)
    (st : EvState) : EvState × Except PyErr Unit :=
  update_cache_loop extract st (globH5 st.folder fs)

/-- `EventsComponent.list`: `update_cache`, then
`sorted(self.__event_info_cache.keys())`. -/
def list (extract : String → List PyVal) (fs : List String) (st : EvState) :
    EvState × Except PyErr (List String) :=
  match update_cache extract fs st with
  | (st1, .error e) => (st1, .error e)
  | (st1, .ok _) => (st1, .ok (sortStrings (dictKeys st1.event_info_cache)))

/-- `EventsComponent.get_all_events`, value level: `update_cache`, then
return the content of `copy.deepcopy(self.__event_info_cache)` (the
aliasing aspect of the deep copy is modelled separately by the heap
model below). -/
def get_all_events (extract : String → List PyVal) (fs : List String)
    (st : EvState) : EvState × Except PyErr (List (String × PyDict)) :=
  match update_cache extract fs st with
  | (st1, .error e) => (st1, .error e)
  | (st1, .ok _) => (st1, .ok st1.event_info_cache)

end EventsComponent

/-- The operations that can touch an `EventsComponent`'s state during a
session (each `… fs` operation sees the folder contents `fs` current at
the time of the call). -/
inductive EvOp where
  | scan : List String → EvOp
  | getEvent : EventArg → EvOp
  | updateCache : List String → EvOp
  | listEvents : List String → EvOp
  | getAll : List String → EvOp
  deriving DecidableEq

/-- State transition of one operation. -/
def EvOp.step (extract : String → List PyVal) (st : EvState) : EvOp → EvState
  | .scan fs => EventsComponent.fill_all_events fs st
  | .getEvent a => (EventsComponent.get extract st a).1
  | .updateCache fs => (EventsComponent.update_cache extract fs st).1
  | .listEvents fs => (EventsComponent.list extract fs st).1
  | .getAll fs => (EventsComponent.get_all_events extract fs st).1

/-- Run a sequence of operations. -/
def runOps (extract : String → List PyVal) : EvState → List EvOp → EvState
  | st, [] => st
  | st, op :: rest => runOps extract (op.step extract st) rest

/-- Iterate `get` on the same event name `n` times, threading the
state. -/
def iterGet (extract : String → List PyVal) (k : String) :
    Nat → EvState → EvState
  | 0, st => st
  | n + 1, st => iterGet extract k n (EventsComponent.get extract st (.name k)).1

/-- Fold `get` over a list of arguments (only the state). -/
def runGets (extract : String → List PyVal) : EvState → List EventArg → EvState
  | st, [] => st
  | st, a :: rest => runGets extract (EventsComponent.get extract st a).1 rest

/-!
Heap model of `copy.deepcopy` in `get_all_events`.  In CPython the
component's `__event_info_cache` maps event names to record dict
*objects*; `get_all_events` returns `copy.deepcopy` of the whole dict,
i.e. a fresh outer dict whose record dicts live at fresh addresses.
Mutating a record reached through the returned structure is a heap
write at one of those fresh addresses and cannot change what the cache's
own addresses hold.
-/

/-- A heap of record-dict objects: contents per address, plus the
allocation bound (every live address is below `next`). -/
structure Heap where
  mem : Nat → PyDict
  next : Nat

/-- Allocate a fresh object holding `d`. -/
def Heap.alloc (h : Heap) (d : PyDict) : Heap × Nat :=
  ({ mem := fun a => if a = h.next then d else h.mem a, next := h.next + 1 },
   h.next)

/-- In-place mutation of the object at address `a`. -/
def Heap.write (h : Heap) (a : Nat) (d : PyDict) : Heap :=
  { h with mem := fun b => if b = a then d else h.mem b }

/-- The cache dict as an object graph: event name to address of the
record dict. -/
abbrev CacheRefs := List (String × Nat)

/-- `copy.deepcopy` of the cache dict: a fresh outer structure whose
entries point at freshly allocated copies of each record dict. -/
def deepcopyCache (h : Heap) : CacheRefs → Heap × CacheRefs
  | [] => (h, [])
  | (k, a) :: rest =>
    let step1 := h.alloc (h.mem a)
    let step2 := deepcopyCache step1.1 rest
    (step2.1, (k, step1.2) :: step2.2)

/-- The cache state an observer sees: each event name with the current
contents of its record dict. -/
def readCache (h : Heap) (c : CacheRefs) : List (String × PyDict) :=
  c.map (fun p => (p.1, h.mem p.2))

namespace Project

/-- `fct_type_map` from `Project.get_project_function`. -/
def fct_type_map : List (String × String) :=
  [("window_picking_function", "window_picking_function.py"),
   ("processing_function", "process_data.py"),
   ("preprocessing_function_asdf", "preprocessing_function_asdf.py"),
   ("process_synthetics", "process_synthetics.py"),
   ("source_time_function", "source_time_function.py")]

/-- `needle.isPrefixOf hay` on char lists, for Python substring tests. -/
def beginsWith : List Char → List Char → Bool
  | _, [] => true
  | [], _ :: _ => false
  | a :: as, b :: bs => a == b && beginsWith as bs

/-- Python `needle in hay` on strings (substring containment). -/
def containsSub (needle : List Char) : List Char → Bool
  | [] => beginsWith [] needle
  | c :: cs => beginsWith (c :: cs) needle || containsSub needle cs

/-- Python `needle in hay` for `str` operands. -/
def pyStrIn (needle hay : String) : Bool := containsSub needle.data hay.data

/-- How far `Project.get_project_function` gets before touching the
filesystem, as a function of the session function cache and the
requested kind. -/
inductive GPFOutcome where
  | cached
  | notFoundKind
  | keyErrorMap
  | fileAccess : String → GPFOutcome
  deriving DecidableEq

/-- `Project.get_project_function` up to the first filesystem access:
return the cached function if the kind was already loaded; then the
guard `if fct_type not in fct_type` (a self-containment test, exactly as
written in the code) would raise `LASIFNotFoundError`; then
`fct_type_map[fct_type]` raises an uncaught `KeyError` for a kind not in
the map; otherwise the file under the functions directory is accessed. -/
def get_project_function (cache_keys : List String) (functions_dir : String)
    (fct_type : String) : GPFOutcome :=
  if fct_type ∈ cache_keys then .cached
  else if !(pyStrIn fct_type fct_type) then .notFoundKind
  else
    match dictGet? fct_type_map fct_type with
    | none => .keyErrorMap
    | some fn => .fileAccess (functions_dir ++ "/" ++ fn)

/-- A Python `init_project` argument: `False`, `True`, or a project-name
string (the parameter is documented as bool-or-string). -/
inductive PyInitArg where
  | pyFalse
  | pyTrue
  | pyStr : String → PyInitArg
  deriving DecidableEq

/-- Python truthiness of the argument. -/
def PyInitArg.truthy : PyInitArg → Bool
  | .pyFalse => false
  | .pyTrue => true
  | .pyStr s => !(s == "")

/-- Python `str()` of the argument, as interpolated into the f-string of
the default config. -/
def PyInitArg.pyStrOf : PyInitArg → String
  | .pyFalse => "False"
  | .pyTrue => "True"
  | .pyStr s => s

/-- Contents of the configuration file: either the default config text
generated for a given project name, or anything else a user wrote. -/
inductive ConfigContent where
  | defaultConfig : String → ConfigContent
  | custom : String → ConfigContent
  deriving DecidableEq

/-- The filesystem state `Project.__init__` inspects: whether the root
directory exists and the configuration file with its contents (if
present). -/
structure ProjState where
  rootExists : Bool
  config_file : Option ConfigContent
  deriving DecidableEq

/-- `Project.__init_new_project`: default the name when the argument is
falsy (dead in practice, since the caller only passes truthy values),
then write the default config file, unconditionally overwriting. -/
def init_new_project (st : ProjState) (project_name : PyInitArg) : ProjState :=
  let name := if !project_name.truthy then "LASIFProject" else project_name.pyStrOf
  { st with config_file := some (.defaultConfig name) }

/-- `Project.__init__` restricted to lines 57–68: create the root and
run `__init_new_project` when `init_project` is truthy, then fail with
`LASIFError` when no config file exists, otherwise proceed to the
normal load. -/
def project_init (st : ProjState) (init_project : PyInitArg) :
    ProjState × Except PyErr Unit :=
  let st1 := if init_project.truthy && !st.rootExists then
    { st with rootExists := true } else st
  let st2 := if init_project.truthy then init_new_project st1 init_project else st1
  if st2.config_file.isNone then (st2, .error .lasifError) else (st2, .ok ())

end Project

/-!  Concrete fixtures used by witnesses and counterexamples. -/

/-- A concrete extraction function with the shape of
`_extract_index_values_quakeml`: one value per index field, with the
event name (derived from the file path exactly as the real extractor
derives it) in the `event_name` position. -/
def goodExtract : String → List PyVal :=
  fun pth => index_values.map
    (fun fld => if fld = "event_name"
      then PyVal.str (splitextRoot (basename pth)) else PyVal.str pth)

/-- Component freshly constructed on a folder holding `A.h5` and
`B.h5`. -/
def stAB : EvState := EventsComponent.init "F" ["A.h5", "B.h5"]

/-- `stAB` after `get("A")` and `get("B")` (both records cached). -/
def stABwarm : EvState :=
  (EventsComponent.get goodExtract
    (EventsComponent.get goodExtract stAB (.name "A")).1 (.name "B")).1

/-- A component state remembering a key whose file is gone: constructed
on a folder holding only `old.h5`. -/
def stOld : EvState := EventsComponent.init "F" ["old.h5"]

/-- Component freshly constructed on a folder holding only `A.h5`. -/
def stA : EvState := EventsComponent.init "F" ["A.h5"]

/-- The state after the first `get("A")` on `stA`. -/
def stAwarm : EvState := (EventsComponent.get goodExtract stA (.name "A")).1

/-- The record returned by `get("A")` on `stA` (its `Except` payload). -/
def recA : PyDict :=
  ((EventsComponent.get goodExtract stA (.name "A")).2).toOption.getD []

/-- The sorted scan keys of the spec's description of `list_all()`:
`sorted` of the keys derived from the files currently matching the
pattern, one key per file. -/
def spec_sorted_scan_keys (folder : String) (fs : List String) : List String :=
  sortStrings ((globH5 folder fs).map (fun f => splitextRoot (basename f)))

/-- The state after `list()` on the fresh two-file component. -/
def stABlisted : EvState :=
  (EventsComponent.list goodExtract ["A.h5", "B.h5"] stAB).1

/-- Reachable-state invariant: every `all_events` binding pairs a key
with a file path from which exactly that key is derived (guaranteed by
`fill_all_events`, which derives the key from the path it stores). -/
def keysMatchPaths (st : EvState) : Prop :=
  ∀ k pth, dictGet? st.all_events k = some pth → splitextRoot (basename pth) = k

/-- Reachable-state invariant: every cached record carries its own key
in its `event_name` field (guaranteed by `get`, which builds the record
from the extraction output for that key's file). -/
def cacheNamesOk (st : EvState) : Prop :=
  ∀ k r, dictGet? st.event_info_cache k = some r →
    dictGet? r "event_name" = some (.str k)

/-- Contract of `_extract_index_values_quakeml`: position 1 of the
returned values (the `event_name` slot of `index_values`) holds the
event name derived from the file path. -/
def extractNameOk (extract : String → List PyVal) : Prop :=
  ∀ pth, (extract pth)[1]? = some (.str (splitextRoot (basename pth)))

/-- Decidable equality for `Except`, used to evaluate the embedded
operations on concrete inputs. -/
def exceptDecEq {ε α : Type} [DecidableEq ε] [DecidableEq α] :
    DecidableEq (Except ε α) := fun x y =>
  match x, y with
  | .ok a, .ok b =>
    if h : a = b then isTrue (by rw [h]) else isFalse (by simp [h])
  | .error a, .error b =>
    if h : a = b then isTrue (by rw [h]) else isFalse (by simp [h])
  | .ok _, .error _ => isFalse (by simp)
  | .error _, .ok _ => isFalse (by simp)

instance {ε α : Type} [DecidableEq ε] [DecidableEq α] :
    DecidableEq (Except ε α) := exceptDecEq

/-!  Lemmas about the Python dict model. -/

theorem dictGet?_set_self {α : Type} (d : List (String × α)) (k : String) (v : α) :
    dictGet? (dictSet d k v) k = some v := by
  induction d with
  | nil => simp [dictSet, dictGet?]
  | cons p d ih =>
    by_cases h : p.1 = k
    · simp [dictSet, h, dictGet?]
    · simp [dictSet, h, dictGet?, ih]

theorem dictGet?_set_ne {α : Type} (d : List (String × α)) (k k' : String) (v : α)
    (h : k' ≠ k) : dictGet? (dictSet d k v) k' = dictGet? d k' := by
  have hk : ¬k = k' := fun hh => h hh.symm
  induction d with
  | nil => simp [dictSet, dictGet?, hk]
  | cons p d ih =>
    by_cases hp : p.1 = k
    · have hp' : ¬p.1 = k' := fun hh => hk (hp.symm.trans hh)
      rw [dictSet, if_pos hp, dictGet?, if_neg hk, dictGet?, if_neg hp']
    · rw [dictSet, if_neg hp, dictGet?, dictGet?]
      by_cases hp' : p.1 = k'
      · rw [if_pos hp', if_pos hp']
      · rw [if_neg hp', if_neg hp', ih]

theorem isSome_dictGet?_set_iff {α : Type} (d : List (String × α))
    (k k' : String) (v : α) :
    (dictGet? (dictSet d k v) k').isSome ↔ k' = k ∨ (dictGet? d k').isSome := by
  by_cases h : k' = k
  · subst h; simp [dictGet?_set_self]
  · rw [dictGet?_set_ne d k k' v h]; simp [h]

theorem mem_dictKeys {α : Type} (d : List (String × α)) (k : String) :
    k ∈ dictKeys d ↔ (dictGet? d k).isSome := by
  induction d with
  | nil => simp [dictKeys, dictGet?]
  | cons p d ih =>
    rw [dictKeys, List.map_cons, List.mem_cons, dictGet?]
    by_cases h : p.1 = k
    · simp [h]
    · rw [if_neg h]
      simp only [dictKeys] at ih
      rw [ih]
      constructor
      · rintro (h1 | hm)
        · exact absurd h1.symm h
        · exact hm
      · exact fun hm => Or.inr hm

/-!  Lemmas about the string order and the sort. -/

theorem charListLe_total (a b : List Char) :
    charListLe a b = true ∨ charListLe b a = true := by
  induction a generalizing b with
  | nil => left; simp [charListLe]
  | cons x xs ih =>
    cases b with
    | nil => right; simp [charListLe]
    | cons y ys =>
      by_cases h : x.toNat = y.toNat
      · rcases ih ys with hl | hr
        · left; simp [charListLe, h, hl]
        · right; simp [charListLe, h.symm, hr]
      · by_cases hlt : x.toNat < y.toNat
        · left; simp [charListLe, h, hlt]
        · right
          have hne : y.toNat ≠ x.toNat := fun hh => h hh.symm
          have : y.toNat < x.toNat := by omega
          simp [charListLe, hne, this]

theorem charListLe_trans (a b c : List Char)
    (hab : charListLe a b = true) (hbc : charListLe b c = true) :
    charListLe a c = true := by
  induction a generalizing b c with
  | nil => simp [charListLe]
  | cons x xs ih =>
    cases b with
    | nil => simp [charListLe] at hab
    | cons y ys =>
      cases c with
      | nil => simp [charListLe] at hbc
      | cons z zs =>
        by_cases hxy : x.toNat = y.toNat
        · by_cases hyz : y.toNat = z.toNat
          · have hxz : x.toNat = z.toNat := hxy.trans hyz
            simp only [charListLe, hxy, if_true] at hab
            simp only [charListLe, hyz, if_true] at hbc
            simp [charListLe, hxz, ih ys zs hab hbc]
          · simp only [charListLe, hyz, if_false] at hbc
            have hlt : y.toNat < z.toNat := of_decide_eq_true hbc
            have hxz : x.toNat ≠ z.toNat := by omega
            have : x.toNat < z.toNat := by omega
            simp [charListLe, hxz, this]
        · simp only [charListLe, hxy, if_false] at hab
          have hxylt : x.toNat < y.toNat := of_decide_eq_true hab
          by_cases hyz : y.toNat = z.toNat
          · have hxz : x.toNat ≠ z.toNat := by omega
            have : x.toNat < z.toNat := by omega
            simp [charListLe, hxz, this]
          · simp only [charListLe, hyz, if_false] at hbc
            have hyzlt : y.toNat < z.toNat := of_decide_eq_true hbc
            have hxz : x.toNat ≠ z.toNat := by omega
            have : x.toNat < z.toNat := by omega
            simp [charListLe, hxz, this]

theorem strLe_total (a b : String) : strLe a b = true ∨ strLe b a = true :=
  charListLe_total a.data b.data

theorem strLe_trans (a b c : String) (hab : strLe a b = true)
    (hbc : strLe b c = true) : strLe a c = true :=
  charListLe_trans a.data b.data c.data hab hbc

theorem mem_insertSorted (a x : String) (l : List String) :
    x ∈ insertSorted a l ↔ x = a ∨ x ∈ l := by
  induction l with
  | nil => simp [insertSorted]
  | cons b bs ih =>
    cases hle : strLe a b with
    | true => simp [insertSorted, hle]
    | false =>
      simp only [insertSorted, hle, Bool.false_eq_true, if_false, List.mem_cons, ih]
      tauto

theorem pairwise_insertSorted (a : String) (l : List String)
    (h : List.Pairwise (fun x y => strLe x y = true) l) :
    List.Pairwise (fun x y => strLe x y = true) (insertSorted a l) := by
  induction l with
  | nil => simp [insertSorted]
  | cons b bs ih =>
    cases hle : strLe a b with
    | true =>
      simp only [insertSorted, hle, if_true]
      refine List.Pairwise.cons ?_ h
      intro x hx
      rcases List.mem_cons.mp hx with rfl | hx
      · exact hle
      · exact strLe_trans a b x hle ((List.pairwise_cons.mp h).1 x hx)
    | false =>
      simp only [insertSorted, hle, Bool.false_eq_true, if_false]
      have hba : strLe b a = true := by
        rcases strLe_total a b with hab | hba
        · rw [hab] at hle; cases hle
        · exact hba
      refine List.Pairwise.cons ?_ (ih (List.pairwise_cons.mp h).2)
      intro x hx
      rcases (mem_insertSorted a x bs).mp hx with rfl | hx
      · exact hba
      · exact (List.pairwise_cons.mp h).1 x hx

theorem pairwise_sortStrings (l : List String) :
    List.Pairwise (fun x y => strLe x y = true) (sortStrings l) := by
  induction l with
  | nil => simp [sortStrings]
  | cons a as ih => exact pairwise_insertSorted a _ ih

theorem mem_sortStrings (x : String) (l : List String) :
    x ∈ sortStrings l ↔ x ∈ l := by
  induction l with
  | nil => simp [sortStrings]
  | cons a as ih =>
    simp only [sortStrings, List.foldr_cons, List.mem_cons]
    rw [mem_insertSorted]
    simp only [sortStrings] at ih
    rw [ih]

/-!  Equation lemmas for `get` on the three reachable branches. -/

theorem get_name_notfound (extract : String → List PyVal) (st : EvState) (k : String)
    (h : dictGet? st.all_events k = none) :
    EventsComponent.get extract st (.name k) = (st, .error .lasifNotFound) := by
  simp [EventsComponent.get, resolveEventName, h]

theorem get_name_cached (extract : String → List PyVal) (st : EvState)
    (k p : String) (r : PyDict)
    (hp : dictGet? st.all_events k = some p)
    (hr : dictGet? st.event_info_cache k = some r) :
    EventsComponent.get extract st (.name k) = (st, .ok r) := by
  simp [EventsComponent.get, resolveEventName, hp, hr]

theorem get_name_cold (extract : String → List PyVal) (st : EvState)
    (k p : String) (t : PyVal)
    (hp : dictGet? st.all_events k = some p)
    (hc : dictGet? st.event_info_cache k = none)
    (hot : dictGet? (List.zip index_values (extract p)) "origin_time" = some t) :
    EventsComponent.get extract st (.name k) =
      ({ st with
          event_info_cache := dictSet st.event_info_cache k
            (dictSet (List.zip index_values (extract p)) "origin_time" (.utc t)),
          parseLog := st.parseLog ++ [p] },
       .ok (dictSet (List.zip index_values (extract p)) "origin_time" (.utc t))) := by
  simp [EventsComponent.get, resolveEventName, hp, hc, hot]

theorem get_record_eq_name (extract : String → List PyVal) (st : EvState)
    (r : PyDict) (k : String)
    (hr : dictGet? r "event_name" = some (.str k)) :
    EventsComponent.get extract st (.record r) =
      EventsComponent.get extract st (.name k) := by
  simp [EventsComponent.get, resolveEventName, hr]

theorem has_event_record_eq_name (st : EvState) (r : PyDict) (k : String)
    (hr : dictGet? r "event_name" = some (.str k)) :
    EventsComponent.has_event st (.record r) =
      EventsComponent.has_event st (.name k) := by
  simp [EventsComponent.has_event, resolveEventName, hr]


theorem get_record_unhash (extract : String → List PyVal) (st : EvState)
    (d : PyDict) (h : dictGet? d "event_name" = none) :
    EventsComponent.get extract st (.record d) = (st, .error .typeError) := by
  simp [EventsComponent.get, resolveEventName, h]

theorem get_record_num (extract : String → List PyVal) (st : EvState)
    (d : PyDict) (n : Int) (h : dictGet? d "event_name" = some (.num n)) :
    EventsComponent.get extract st (.record d) = (st, .error .lasifNotFound) := by
  simp [EventsComponent.get, resolveEventName, h]

theorem get_record_utc (extract : String → List PyVal) (st : EvState)
    (d : PyDict) (v : PyVal) (h : dictGet? d "event_name" = some (.utc v)) :
    EventsComponent.get extract st (.record d) = (st, .error .lasifNotFound) := by
  simp [EventsComponent.get, resolveEventName, h]

theorem get_name_keyerror (extract : String → List PyVal) (st : EvState)
    (k p : String)
    (hp : dictGet? st.all_events k = some p)
    (hc : dictGet? st.event_info_cache k = none)
    (hot : dictGet? (List.zip index_values (extract p)) "origin_time" = none) :
    EventsComponent.get extract st (.name k) =
      ({ st with parseLog := st.parseLog ++ [p] },
       .error (.keyError "origin_time")) := by
  simp [EventsComponent.get, resolveEventName, hp, hc, hot]

/-!  Frame lemmas: which fields each operation can change. -/

theorem get_name_fst_all_events (extract : String → List PyVal) (st : EvState)
    (s : String) :
    ((EventsComponent.get extract st (.name s)).1).all_events = st.all_events := by
  rcases hma : dictGet? st.all_events s with _ | p
  · rw [get_name_notfound extract st s hma]
  · rcases hcc : dictGet? st.event_info_cache s with _ | r
    · rcases hot : dictGet? (List.zip index_values (extract p)) "origin_time"
        with _ | t
      · rw [get_name_keyerror extract st s p hma hcc hot]
      · rw [get_name_cold extract st s p t hma hcc hot]
    · rw [get_name_cached extract st s p r hma hcc]

theorem get_fst_all_events (extract : String → List PyVal) (st : EvState)
    (arg : EventArg) :
    ((EventsComponent.get extract st arg).1).all_events = st.all_events := by
  rcases arg with s | d
  · exact get_name_fst_all_events extract st s
  · rcases hr : dictGet? d "event_name" with _ | v
    · rw [get_record_unhash extract st d hr]
    · rcases v with s | n | u
      · rw [get_record_eq_name extract st d s hr]
        exact get_name_fst_all_events extract st s
      · rw [get_record_num extract st d n hr]
      · rw [get_record_utc extract st d u hr]

theorem get_name_preserves_cache (extract : String → List PyVal) (st : EvState)
    (s k : String) (r : PyDict)
    (h : dictGet? st.event_info_cache k = some r) :
    dictGet? ((EventsComponent.get extract st (.name s)).1).event_info_cache k
      = some r := by
  rcases hma : dictGet? st.all_events s with _ | p
  · rw [get_name_notfound extract st s hma]; exact h
  · rcases hcc : dictGet? st.event_info_cache s with _ | r0
    · rcases hot : dictGet? (List.zip index_values (extract p)) "origin_time"
        with _ | t
      · rw [get_name_keyerror extract st s p hma hcc hot]; exact h
      · rw [get_name_cold extract st s p t hma hcc hot]
        have hks : k ≠ s := fun hh => by rw [hh, hcc] at h; cases h
        show dictGet? (dictSet st.event_info_cache s _) k = some r
        rw [dictGet?_set_ne _ s k _ hks]
        exact h
    · rw [get_name_cached extract st s p r0 hma hcc]; exact h

theorem get_preserves_cache_entry (extract : String → List PyVal) (st : EvState)
    (arg : EventArg) (k : String) (r : PyDict)
    (h : dictGet? st.event_info_cache k = some r) :
    dictGet? ((EventsComponent.get extract st arg).1).event_info_cache k
      = some r := by
  rcases arg with s | d
  · exact get_name_preserves_cache extract st s k r h
  · rcases hr : dictGet? d "event_name" with _ | v
    · rw [get_record_unhash extract st d hr]; exact h
    · rcases v with s | n | u
      · rw [get_record_eq_name extract st d s hr]
        exact get_name_preserves_cache extract st s k r h
      · rw [get_record_num extract st d n hr]; exact h
      · rw [get_record_utc extract st d u hr]; exact h

theorem get_ok_caches (extract : String → List PyVal) (st st1 : EvState)
    (n : String) (r : PyDict)
    (h : EventsComponent.get extract st (.name n) = (st1, .ok r)) :
    dictGet? st1.event_info_cache n = some r := by
  rcases hma : dictGet? st.all_events n with _ | p
  · rw [get_name_notfound extract st n hma] at h
    cases h
  · rcases hcc : dictGet? st.event_info_cache n with _ | r0
    · rcases hot : dictGet? (List.zip index_values (extract p)) "origin_time"
        with _ | t
      · rw [get_name_keyerror extract st n p hma hcc hot] at h
        cases h
      · rw [get_name_cold extract st n p t hma hcc hot] at h
        have h1 : st1 = { st with
            event_info_cache := dictSet st.event_info_cache n
              (dictSet (List.zip index_values (extract p)) "origin_time" (.utc t)),
            parseLog := st.parseLog ++ [p] } := (congrArg Prod.fst h).symm
        have h2 : r = dictSet (List.zip index_values (extract p))
            "origin_time" (.utc t) := by
          have := congrArg Prod.snd h
          simp only at this
          cases this
          rfl
        rw [h1, h2]
        simp [dictGet?_set_self]
    · rw [get_name_cached extract st n p r0 hma hcc] at h
      have h1 : st1 = st := (congrArg Prod.fst h).symm
      have h2 : r = r0 := by
        have := congrArg Prod.snd h
        simp only at this
        cases this
        rfl
      rw [h1, h2]
      exact hcc

/-!  Lemmas about `update_cache` and the operations built on it. -/

theorem update_cache_loop_preserves_cache (extract : String → List PyVal)
    (files : List String) (st : EvState) (k : String) (r : PyDict)
    (h : dictGet? st.event_info_cache k = some r) :
    dictGet? ((EventsComponent.update_cache_loop extract st files).1).event_info_cache k
      = some r := by
  induction files generalizing st with
  | nil => exact h
  | cons f rest ih =>
    rw [EventsComponent.update_cache_loop]
    rcases hg : EventsComponent.get extract st (.name (splitextRoot (basename f)))
      with ⟨st1, res⟩
    have hpres : dictGet? st1.event_info_cache k = some r := by
      have := get_preserves_cache_entry extract st
        (.name (splitextRoot (basename f))) k r h
      rw [hg] at this
      exact this
    rcases res with e | v
    · exact hpres
    · exact ih st1 hpres

theorem update_cache_loop_fst_all_events (extract : String → List PyVal)
    (files : List String) (st : EvState) :
    ((EventsComponent.update_cache_loop extract st files).1).all_events
      = st.all_events := by
  induction files generalizing st with
  | nil => rfl
  | cons f rest ih =>
    rw [EventsComponent.update_cache_loop]
    rcases hg : EventsComponent.get extract st (.name (splitextRoot (basename f)))
      with ⟨st1, res⟩
    have hfr : st1.all_events = st.all_events := by
      have := get_fst_all_events extract st (.name (splitextRoot (basename f)))
      rw [hg] at this
      exact this
    rcases res with e | v
    · exact hfr
    · rw [ih st1, hfr]

theorem update_cache_loop_ok_mem (extract : String → List PyVal)
    (files : List String) (st st1 : EvState)
    (h : EventsComponent.update_cache_loop extract st files = (st1, .ok ())) :
    ∀ f ∈ files,
      (dictGet? st1.event_info_cache (splitextRoot (basename f))).isSome := by
  induction files generalizing st with
  | nil => intro f hf; cases hf
  | cons f0 rest ih =>
    intro f hf
    rw [EventsComponent.update_cache_loop] at h
    rcases hg : EventsComponent.get extract st (.name (splitextRoot (basename f0)))
      with ⟨st2, res⟩
    rw [hg] at h
    rcases res with e | v
    · cases h
    · rcases List.mem_cons.mp hf with rfl | hfr
      · have hc : dictGet? st2.event_info_cache (splitextRoot (basename f))
            = some v := get_ok_caches extract st st2 _ v hg
        have hp := update_cache_loop_preserves_cache extract rest st2 _ v hc
        have h1 : (EventsComponent.update_cache_loop extract st2 rest).1 = st1 :=
          congrArg Prod.fst h
        rw [h1] at hp
        exact Option.isSome_iff_exists.mpr ⟨v, hp⟩
      · exact ih st2 h f hfr

theorem list_fst_eq_update_fst (extract : String → List PyVal)
    (fs : List String) (st : EvState) :
    (EventsComponent.list extract fs st).1
      = (EventsComponent.update_cache extract fs st).1 := by
  rw [EventsComponent.list]
  rcases h : EventsComponent.update_cache extract fs st with ⟨st1, res⟩
  rcases res with e | v <;> rfl

theorem get_all_fst_eq_update_fst (extract : String → List PyVal)
    (fs : List String) (st : EvState) :
    (EventsComponent.get_all_events extract fs st).1
      = (EventsComponent.update_cache extract fs st).1 := by
  rw [EventsComponent.get_all_events]
  rcases h : EventsComponent.update_cache extract fs st with ⟨st1, res⟩
  rcases res with e | v <;> rfl

/-!  Lemmas about `fill_all_events` (the scan). -/

theorem fill_frame (fs : List String) (st : EvState) :
    (EventsComponent.fill_all_events fs st).event_info_cache = st.event_info_cache ∧
    (EventsComponent.fill_all_events fs st).parseLog = st.parseLog ∧
    (EventsComponent.fill_all_events fs st).folder = st.folder := by
  refine ⟨rfl, rfl, rfl⟩

theorem foldl_scan_isSome_iff (files : List String)
    (m : List (String × String)) (k : String) :
    (dictGet? (files.foldl
        (fun m file => dictSet m (splitextRoot (basename file)) file) m) k).isSome
      ↔ (dictGet? m k).isSome
        ∨ k ∈ files.map (fun f => splitextRoot (basename f)) := by
  induction files generalizing m with
  | nil => simp
  | cons f rest ih =>
    rw [List.foldl_cons, ih, isSome_dictGet?_set_iff]
    simp only [List.map_cons, List.mem_cons]
    tauto

/-!  Key-distinctness lemmas for the dict model. -/

theorem mem_dictKeys_set {α : Type} (d : List (String × α)) (k' : String) (v : α)
    (k : String) :
    k ∈ dictKeys (dictSet d k' v) ↔ k = k' ∨ k ∈ dictKeys d := by
  rw [mem_dictKeys, isSome_dictGet?_set_iff, mem_dictKeys]

theorem nodup_dictKeys_set {α : Type} (d : List (String × α)) (k : String) (v : α)
    (h : (dictKeys d).Nodup) : (dictKeys (dictSet d k v)).Nodup := by
  induction d with
  | nil => simp [dictSet, dictKeys]
  | cons p d ih =>
    rw [dictKeys, List.map_cons, List.nodup_cons] at h
    by_cases hp : p.1 = k
    · rw [dictSet, if_pos hp, dictKeys, List.map_cons, List.nodup_cons]
      exact ⟨hp ▸ h.1, h.2⟩
    · rw [dictSet, if_neg hp, dictKeys, List.map_cons, List.nodup_cons]
      refine ⟨?_, ih h.2⟩
      intro hmem
      rcases (mem_dictKeys_set d k v p.1).mp hmem with h1 | h1
      · exact hp h1
      · exact h.1 h1

theorem nodup_keys_foldl_scan (files : List String) (m : List (String × String))
    (h : (dictKeys m).Nodup) :
    (dictKeys (files.foldl
      (fun m file => dictSet m (splitextRoot (basename file)) file) m)).Nodup := by
  induction files generalizing m with
  | nil => exact h
  | cons f rest ih => exact ih _ (nodup_dictKeys_set m _ _ h)

/-!  Preservation of cached records by every session operation. -/

theorem step_preserves_cache (extract : String → List PyVal) (st : EvState)
    (op : EvOp) (k : String) (r : PyDict)
    (h : dictGet? st.event_info_cache k = some r) :
    dictGet? ((EvOp.step extract st op)).event_info_cache k = some r := by
  rcases op with fs | a | fs | fs | fs
  · rw [EvOp.step, (fill_frame fs st).1]; exact h
  · exact get_preserves_cache_entry extract st a k r h
  · rw [EvOp.step, EventsComponent.update_cache]
    exact update_cache_loop_preserves_cache extract _ st k r h
  · rw [EvOp.step, list_fst_eq_update_fst, EventsComponent.update_cache]
    exact update_cache_loop_preserves_cache extract _ st k r h
  · rw [EvOp.step, get_all_fst_eq_update_fst, EventsComponent.update_cache]
    exact update_cache_loop_preserves_cache extract _ st k r h

theorem runOps_preserves_cache (extract : String → List PyVal) (st : EvState)
    (ops : List EvOp) (k : String) (r : PyDict)
    (h : dictGet? st.event_info_cache k = some r) :
    dictGet? (runOps extract st ops).event_info_cache k = some r := by
  induction ops generalizing st with
  | nil => exact h
  | cons op rest ih =>
    rw [runOps]
    exact ih _ (step_preserves_cache extract st op k r h)

theorem runGets_all_events (extract : String → List PyVal) (st : EvState)
    (args : List EventArg) :
    (runGets extract st args).all_events = st.all_events := by
  induction args generalizing st with
  | nil => rfl
  | cons a rest ih => rw [runGets, ih, get_fst_all_events]

theorem iterGet_fixed (extract : String → List PyVal) (k : String) (st : EvState)
    (v : PyDict)
    (h : EventsComponent.get extract st (.name k) = (st, .ok v)) (n : Nat) :
    iterGet extract k n st = st := by
  induction n with
  | zero => rfl
  | succ m ih => rw [iterGet, h]; exact ih

/-!  Position of the `event_name` field in a freshly built record. -/

theorem dictGet?_zip_event_name (vs : List PyVal) :
    dictGet? (List.zip index_values vs) "event_name" = vs[1]? := by
  rcases vs with _ | ⟨v0, _ | ⟨v1, rest⟩⟩
  · simp [index_values, dictGet?]
  · simp [index_values, dictGet?,
      show ("filename" : String) ≠ "event_name" from by decide]
  · simp [index_values, dictGet?,
      show ("filename" : String) ≠ "event_name" from by decide]

/-!  Lemmas about the heap model of `copy.deepcopy`. -/

theorem deepcopy_next_mono (c : CacheRefs) (h : Heap) :
    h.next ≤ ((deepcopyCache h c).1).next := by
  induction c generalizing h with
  | nil => exact Nat.le_refl _
  | cons q rest ih =>
    rcases q with ⟨k, a⟩
    rw [deepcopyCache]
    exact Nat.le_trans (Nat.le_succ h.next) (ih ((h.alloc (h.mem a)).1))

theorem deepcopy_addrs_ge (c : CacheRefs) (h : Heap) :
    ∀ q ∈ (deepcopyCache h c).2, h.next ≤ q.2 := by
  induction c generalizing h with
  | nil => intro q hq; cases hq
  | cons q0 rest ih =>
    rcases q0 with ⟨k, a⟩
    intro q hq
    rw [deepcopyCache] at hq
    rcases List.mem_cons.mp hq with rfl | hq
    · exact Nat.le_refl _
    · exact Nat.le_trans (Nat.le_succ _) (ih _ q hq)

theorem deepcopy_mem_lt (c : CacheRefs) (h : Heap) (b : Nat) (hb : b < h.next) :
    ((deepcopyCache h c).1).mem b = h.mem b := by
  induction c generalizing h with
  | nil => rfl
  | cons q0 rest ih =>
    rcases q0 with ⟨k, a⟩
    rw [deepcopyCache]
    have hb1 : b < (h.alloc (h.mem a)).1.next := Nat.lt_trans hb (Nat.lt_succ_self _)
    rw [ih _ hb1]
    show (if b = h.next then h.mem a else h.mem b) = h.mem b
    rw [if_neg (Nat.ne_of_lt hb)]

theorem write_mem_ne (h : Heap) (a b : Nat) (d : PyDict) (hne : b ≠ a) :
    (h.write a d).mem b = h.mem b := by
  show (if b = a then d else h.mem b) = h.mem b
  rw [if_neg hne]

/-!  Substring self-containment for the dead kind check. -/

theorem beginsWith_refl (l : List Char) : Project.beginsWith l l = true := by
  induction l with
  | nil => rfl
  | cons c cs ih => simp [Project.beginsWith, ih]

theorem pyStrIn_self (s : String) : Project.pyStrIn s s = true := by
  rw [Project.pyStrIn]
  rcases hd : s.data with _ | ⟨c, cs⟩
  · rfl
  · rw [Project.containsSub]
    simp [beginsWith_refl]

/-- C1: for a key `k` bound in the key-to-file map and not yet cached,
`has(k)` is true, and after any number `n ≥ 1` of calls to `get(k)` the
injected extraction function has been invoked exactly once on `k`'s
file; every call after the first leaves the state unchanged and returns
the record already stored in the record cache. -/
theorem C1_memoization (extract : String → List PyVal) (st : EvState)
    (k p : String) (t : PyVal) (n : Nat) (hn : 1 ≤ n)
    (hm : dictGet? st.all_events k = some p)
    (hc : dictGet? st.event_info_cache k = none)
    (hl : st.parseLog.count p = 0)
    (hot : dictGet? (List.zip index_values (extract p)) "origin_time" = some t) :
    EventsComponent.has_event st (.name k) = .ok true ∧
    (iterGet extract k n st).parseLog.count p = 1 ∧
    iterGet extract k n st = iterGet extract k 1 st ∧
    (EventsComponent.get extract (iterGet extract k n st) (.name k)).1
      = iterGet extract k n st ∧
    ((EventsComponent.get extract (iterGet extract k n st) (.name k)).2).toOption
      = dictGet? (iterGet extract k n st).event_info_cache k ∧
    (dictGet? (iterGet extract k n st).event_info_cache k).isSome = true := by
  set v : PyDict :=
    dictSet (List.zip index_values (extract p)) "origin_time" (.utc t) with hv
  set stW : EvState := { st with
      event_info_cache := dictSet st.event_info_cache k v,
      parseLog := st.parseLog ++ [p] } with hstW
  have hcold : EventsComponent.get extract st (.name k) = (stW, .ok v) :=
    get_name_cold extract st k p t hm hc hot
  have hWm : dictGet? stW.all_events k = some p := hm
  have hWc : dictGet? stW.event_info_cache k = some v :=
    dictGet?_set_self st.event_info_cache k v
  have hwarm : EventsComponent.get extract stW (.name k) = (stW, .ok v) :=
    get_name_cached extract stW k p v hWm hWc
  obtain ⟨m, rfl⟩ : ∃ m, n = m + 1 := ⟨n - 1, by omega⟩
  have hiter : iterGet extract k (m + 1) st = stW := by
    rw [iterGet, hcold]
    exact iterGet_fixed extract k stW v hwarm m
  have hiter1 : iterGet extract k 1 st = stW := by
    rw [iterGet, hcold]
    rfl
  refine ⟨?_, ?_, ?_, ?_, ?_, ?_⟩
  · simp [EventsComponent.has_event, resolveEventName, hm]
  · rw [hiter]
    show (st.parseLog ++ [p]).count p = 1
    rw [List.count_append, hl]
    simp
  · rw [hiter, hiter1]
  · rw [hiter, hwarm]
  · rw [hiter, hwarm, hWc]
    rfl
  · rw [hiter, hWc]
    rfl

/-- C1 witness: the memoization property evaluated on a concrete
component with one file and three consecutive `get` calls. -/
theorem C1_memoization_witness :
    (1 ≤ 3 ∧ dictGet? stA.all_events "A" = some "F/A.h5" ∧
     dictGet? stA.event_info_cache "A" = none ∧
     stA.parseLog.count "F/A.h5" = 0) ∧
    ((iterGet goodExtract "A" 3 stA).parseLog.count "F/A.h5" = 1 ∧
     iterGet goodExtract "A" 3 stA = iterGet goodExtract "A" 1 stA ∧
     (dictGet? (iterGet goodExtract "A" 3 stA).event_info_cache "A").isSome
       = true) :=
  ⟨⟨by decide, by decide, by decide, by decide⟩,
   by
    have h := C1_memoization goodExtract stA "A" "F/A.h5"
      (PyVal.str "F/A.h5") 3 (by decide) (by decide) (by decide) (by decide)
      (by decide)
    exact ⟨h.2.1, h.2.2.1, h.2.2.2.2.2⟩⟩

/-- C2: for every kind string not in the session cache and not among the
five enumerated function kinds, `get_project_function` does not raise
the intended `LASIFNotFoundError` listing the available types; the
`if fct_type not in fct_type` guard is vacuous (a string always contains
itself), so the lookup `fct_type_map[fct_type]` raises an uncaught
`KeyError` instead. -/
theorem C2_unknown_kind_keyerror (cache_keys : List String)
    (dir fct_type : String)
    (h1 : fct_type ∉ cache_keys)
    (h2 : dictGet? Project.fct_type_map fct_type = none) :
    Project.get_project_function cache_keys dir fct_type
      = .keyErrorMap ∧
    Project.get_project_function cache_keys dir fct_type
      ≠ .notFoundKind := by
  have hmain : Project.get_project_function cache_keys dir fct_type
      = .keyErrorMap := by
    rw [Project.get_project_function, if_neg h1]
    simp [pyStrIn_self, h2]
  refine ⟨hmain, ?_⟩
  rw [hmain]
  decide

/-- C2 witness: the unrecognized kind `bogus` reaches the map lookup
and dies with `KeyError`, not `LASIFNotFoundError`. -/
theorem C2_unknown_kind_keyerror_witness :
    (("bogus" : String) ∉ ([] : List String) ∧
     dictGet? Project.fct_type_map "bogus" = none) ∧
    Project.get_project_function [] "F/FUNCTIONS" "bogus"
      = .keyErrorMap :=
  ⟨⟨by decide, by decide⟩,
   (C2_unknown_kind_keyerror [] "F/FUNCTIONS" "bogus"
     (by decide) (by decide)).1⟩

/-- C8: once a record is cached for a key, any sequence of session
operations (rescans with arbitrary folder contents, further `get`s,
`update_cache`, `list`, `get_all_events`) leaves that cached record
present and unchanged. -/
theorem C8_cached_records_stable (extract : String → List PyVal)
    (st : EvState) (k : String) (r : PyDict) (ops : List EvOp)
    (h : dictGet? st.event_info_cache k = some r) :
    dictGet? (runOps extract st ops).event_info_cache k = some r :=
  runOps_preserves_cache extract st ops k r h

/-- C8 witness: the record cached for `A` survives a rescan that adds
`C.h5`, the parse of `C`, and a full `update_cache`. -/
theorem C8_cached_records_stable_witness :
    dictGet? stAwarm.event_info_cache "A" = some recA ∧
    dictGet? (runOps goodExtract stAwarm
        [.scan ["A.h5", "C.h5"], .getEvent (.name "C"),
         .updateCache ["A.h5", "C.h5"]]).event_info_cache "A" = some recA :=
  ⟨by decide,
   C8_cached_records_stable goodExtract stAwarm "A" recA
     [.scan ["A.h5", "C.h5"], .getEvent (.name "C"),
      .updateCache ["A.h5", "C.h5"]] (by decide)⟩

/-- C9: the structure returned by `get_all_events` is a deep copy of
the record cache, so mutating any record reached through it leaves the
cache state observed afterwards unchanged. -/
theorem C9_deepcopy_isolation (h : Heap) (c : CacheRefs) (a : Nat) (d : PyDict)
    (hwf : ∀ q ∈ c, q.2 < h.next)
    (ha : a ∈ ((deepcopyCache h c).2).map (fun q => q.2)) :
    readCache (((deepcopyCache h c).1).write a d) c = readCache h c := by
  have hage : h.next ≤ a := by
    rcases List.mem_map.mp ha with ⟨q, hq, rfl⟩
    exact deepcopy_addrs_ge c h q hq
  rw [readCache, readCache]
  apply List.map_congr_left
  intro q hq
  have hlt : q.2 < h.next := hwf q hq
  have hne : q.2 ≠ a := Nat.ne_of_lt (Nat.lt_of_lt_of_le hlt hage)
  rw [write_mem_ne _ a q.2 d hne, deepcopy_mem_lt c h q.2 hlt]

/-- C9 witness: a one-record cache, a deep copy, and a mutation of the
copied record at address 1. -/
theorem C9_deepcopy_isolation_witness :
    (∀ q ∈ ([("A", 0)] : CacheRefs), q.2 < 1) ∧
    readCache ((deepcopyCache ⟨fun _ => [], 1⟩ [("A", 0)]).1.write 1
        [("x", PyVal.num 3)]) [("A", 0)]
      = readCache ⟨fun _ => [], 1⟩ [("A", 0)] :=
  ⟨by decide,
   C9_deepcopy_isolation ⟨fun _ => [], 1⟩ [("A", 0)] 1
     [("x", PyVal.num 3)] (by decide) (by decide)⟩

/-- C10: passing a mapping that lacks the `event_name` field makes both
`get` and `has_event` raise `TypeError` (the dict itself becomes the
lookup key and dicts are unhashable), rather than returning `False` or
raising `LASIFNotFoundError`. -/
theorem C10_record_missing_key (extract : String → List PyVal)
    (st : EvState) (d : PyDict)
    (h : dictGet? d "event_name" = none) :
    EventsComponent.has_event st (.record d) = .error .typeError ∧
    EventsComponent.get extract st (.record d) = (st, .error .typeError) :=
  ⟨by simp [EventsComponent.has_event, resolveEventName, h],
   get_record_unhash extract st d h⟩

/-- C10 witness: a dict with only a `foo` field raises `TypeError` from
both operations on a concrete component. -/
theorem C10_record_missing_key_witness :
    dictGet? [("foo", PyVal.num 1)] "event_name" = none ∧
    EventsComponent.has_event stAB (.record [("foo", PyVal.num 1)])
      = .error .typeError ∧
    EventsComponent.get goodExtract stAB (.record [("foo", PyVal.num 1)])
      = (stAB, .error .typeError) :=
  ⟨by decide,
   (C10_record_missing_key goodExtract stAB [("foo", PyVal.num 1)]
     (by decide)).1,
   (C10_record_missing_key goodExtract stAB [("foo", PyVal.num 1)]
     (by decide)).2⟩

/-!  Equation lemmas for `list` and invariant proofs for the fixtures. -/

theorem list_ok_eq (extract : String → List PyVal) (fs : List String)
    (st stU : EvState) (u : Unit)
    (hu : EventsComponent.update_cache extract fs st = (stU, .ok u)) :
    EventsComponent.list extract fs st
      = (stU, .ok (sortStrings (dictKeys stU.event_info_cache))) := by
  rw [EventsComponent.list, hu]

theorem list_error_eq (extract : String → List PyVal) (fs : List String)
    (st stU : EvState) (e : PyErr)
    (hu : EventsComponent.update_cache extract fs st = (stU, .error e)) :
    EventsComponent.list extract fs st = (stU, .error e) := by
  rw [EventsComponent.list, hu]

theorem keysMatchPaths_stA : keysMatchPaths stA := by
  intro k pth h
  have he : stA.all_events = [("A", "F/A.h5")] := by decide
  rw [he, dictGet?] at h
  split at h
  · rename_i heq
    cases h
    have hk : "A" = k := heq
    rw [← hk]
    decide
  · rw [dictGet?] at h
    cases h

theorem cacheNamesOk_stA : cacheNamesOk stA := by
  intro k r h
  have he : stA.event_info_cache = [] := by decide
  rw [he] at h
  simp [dictGet?] at h

theorem extractNameOk_good : extractNameOk goodExtract := by
  intro pth
  rfl

/-- C6: for every key `k` known to the component, passing the record
returned by `get(k)` back to `get` yields the identical record and
state (`get(get(k)) = get(k)`), and `has_event` accepts the record as a
lookup on its own `event_name` field; this holds under the reachable
invariants (keys are derived from their stored paths, cached records
carry their own key) and the extractor contract (position 1 is the
event name). -/
theorem C6_dual_get_get (extract : String → List PyVal) (st st1 : EvState)
    (k : String) (r : PyDict)
    (hkm : keysMatchPaths st) (hcn : cacheNamesOk st)
    (hex : extractNameOk extract)
    (h : EventsComponent.get extract st (.name k) = (st1, .ok r)) :
    EventsComponent.get extract st1 (.record r) = (st1, .ok r) ∧
    EventsComponent.has_event st1 (.record r) = .ok true := by
  rcases hma : dictGet? st.all_events k with _ | p
  · rw [get_name_notfound extract st k hma, Prod.mk.injEq] at h
    exact absurd h.2 (by simp)
  · rcases hcc : dictGet? st.event_info_cache k with _ | r0
    · rcases hot : dictGet? (List.zip index_values (extract p)) "origin_time"
        with _ | t
      · rw [get_name_keyerror extract st k p hma hcc hot, Prod.mk.injEq] at h
        exact absurd h.2 (by simp)
      · rw [get_name_cold extract st k p t hma hcc hot, Prod.mk.injEq] at h
        obtain ⟨h1, h2⟩ := h
        rw [Except.ok.injEq] at h2
        have hname : dictGet? r "event_name" = some (.str k) := by
          rw [← h2]
          rw [dictGet?_set_ne _ "origin_time" "event_name" _
            (by decide : ("event_name" : String) ≠ "origin_time")]
          rw [dictGet?_zip_event_name, hex p, hkm k p hma]
        have hm1 : dictGet? st1.all_events k = some p := by
          rw [← h1]; exact hma
        have hc1 : dictGet? st1.event_info_cache k = some r := by
          rw [← h1, ← h2]
          exact dictGet?_set_self st.event_info_cache k _
        constructor
        · rw [get_record_eq_name extract st1 r k hname]
          exact get_name_cached extract st1 k p r hm1 hc1
        · rw [has_event_record_eq_name st1 r k hname]
          simp [EventsComponent.has_event, resolveEventName, hm1]
    · rw [get_name_cached extract st k p r0 hma hcc, Prod.mk.injEq] at h
      obtain ⟨h1, h2⟩ := h
      rw [Except.ok.injEq] at h2
      have hname : dictGet? r "event_name" = some (.str k) := by
        rw [← h2]; exact hcn k r0 hcc
      have hm1 : dictGet? st1.all_events k = some p := by
        rw [← h1]; exact hma
      have hc1 : dictGet? st1.event_info_cache k = some r := by
        rw [← h1, ← h2]; exact hcc
      constructor
      · rw [get_record_eq_name extract st1 r k hname]
        exact get_name_cached extract st1 k p r hm1 hc1
      · rw [has_event_record_eq_name st1 r k hname]
        simp [EventsComponent.has_event, resolveEventName, hm1]

/-- C6 witness: `get(get("A")) = get("A")` on the concrete one-file
component. -/
theorem C6_dual_get_get_witness :
    EventsComponent.get goodExtract stAwarm (.record recA)
      = (stAwarm, .ok recA) ∧
    EventsComponent.has_event stAwarm (.record recA) = .ok true :=
  C6_dual_get_get goodExtract stA stAwarm "A" recA keysMatchPaths_stA
    cacheNamesOk_stA extractNameOk_good (by decide)

/-- C3 counterexample: on a component whose cache still holds a record
for `B` after `B.h5` was removed from the folder, `list` returns
`["A", "B"]` while the sorted scan keys of the folder at the time of
the call are `["A"]`; the claimed equality fails. -/
theorem C3_list_exceeds_scan :
    (EventsComponent.list goodExtract ["A.h5"] stABwarm).2
      = .ok ["A", "B"] ∧
    stABwarm.folder = "F" ∧
    spec_sorted_scan_keys "F" ["A.h5"] = ["A"] ∧
    (Except.ok ["A", "B"] : Except PyErr (List String)) ≠ .ok ["A"] := by
  refine ⟨by decide, by decide, by decide, by decide⟩

/-- C3 amended: when `list` succeeds it returns the record-cache keys in
ascending order; this list contains every key scanned from the folder at
the time of the call (it equals the sorted scan keys only when no
cached key's file has vanished), and it is exactly `sorted` of the
final cache's keys. -/
theorem C3_list_sorted_warm (extract : String → List PyVal)
    (fs : List String) (st st1 : EvState) (out : List String)
    (h : EventsComponent.list extract fs st = (st1, .ok out)) :
    List.Pairwise (fun a b => strLe a b = true) out ∧
    (∀ f ∈ globH5 st.folder fs, splitextRoot (basename f) ∈ out) ∧
    out = sortStrings (dictKeys st1.event_info_cache) := by
  rcases hu : EventsComponent.update_cache extract fs st with ⟨stU, res⟩
  rcases res with e | u
  · rw [list_error_eq extract fs st stU e hu, Prod.mk.injEq] at h
    exact absurd h.2 (by simp)
  · rw [list_ok_eq extract fs st stU u hu, Prod.mk.injEq] at h
    obtain ⟨h1, h2⟩ := h
    rw [Except.ok.injEq] at h2
    refine ⟨?_, ?_, ?_⟩
    · rw [← h2]
      exact pairwise_sortStrings _
    · intro f hf
      rw [EventsComponent.update_cache] at hu
      have hm := update_cache_loop_ok_mem extract (globH5 st.folder fs)
        st stU hu f hf
      rw [← h2, mem_sortStrings, mem_dictKeys]
      exact hm
    · rw [← h2, h1]

/-- C3 witness: a fresh two-file component; `list` returns the sorted
scan keys and warms the cache. -/
theorem C3_list_sorted_warm_witness :
    List.Pairwise (fun a b => strLe a b = true) (["A", "B"] : List String) ∧
    (∀ f ∈ globH5 stAB.folder ["A.h5", "B.h5"],
      splitextRoot (basename f) ∈ (["A", "B"] : List String)) ∧
    (["A", "B"] : List String)
      = sortStrings (dictKeys stABlisted.event_info_cache) :=
  C3_list_sorted_warm goodExtract ["A.h5", "B.h5"] stAB stABlisted
    ["A", "B"] (by decide)

/-- C4 counterexample: a scan does not replace the key-to-file map
wholesale; after rescanning a folder that now contains only `A.h5`, the
key `old` (whose file is gone) is still bound in the map. -/
theorem C4_stale_key_persists :
    dictGet? (EventsComponent.fill_all_events ["A.h5"] stOld).all_events "old"
      = some "F/old.h5" ∧
    (globH5 stOld.folder ["A.h5"]).map (fun f => splitextRoot (basename f))
      = ["A"] ∧
    ("old" : String) ∉ (["A"] : List String) := by
  refine ⟨by decide, by decide, by decide⟩

/-- C4 amended: a scan leaves the record cache (and parse log)
unmodified and adds or updates one key-to-file binding per file
currently matching the pattern, but never removes a binding: every
previously known key is still bound after the scan. -/
theorem C4_scan_adds_never_removes (fs : List String) (st : EvState) :
    (EventsComponent.fill_all_events fs st).event_info_cache
      = st.event_info_cache ∧
    (EventsComponent.fill_all_events fs st).parseLog = st.parseLog ∧
    (∀ k ∈ dictKeys st.all_events,
      k ∈ dictKeys (EventsComponent.fill_all_events fs st).all_events) ∧
    (∀ f ∈ globH5 st.folder fs,
      splitextRoot (basename f)
        ∈ dictKeys (EventsComponent.fill_all_events fs st).all_events) := by
  refine ⟨rfl, rfl, ?_, ?_⟩
  · intro k hk
    rw [mem_dictKeys] at hk ⊢
    show (dictGet? ((globH5 st.folder fs).foldl
      (fun m file => dictSet m (splitextRoot (basename file)) file)
      st.all_events) k).isSome
    rw [foldl_scan_isSome_iff]
    exact Or.inl hk
  · intro f hf
    rw [mem_dictKeys]
    show (dictGet? ((globH5 st.folder fs).foldl
      (fun m file => dictSet m (splitextRoot (basename file)) file)
      st.all_events) (splitextRoot (basename f))).isSome
    rw [foldl_scan_isSome_iff]
    exact Or.inr (List.mem_map_of_mem _ hf)

/-- C4 witness: the amended scan behaviour on the concrete stale-key
component. -/
theorem C4_scan_adds_never_removes_witness :
    (EventsComponent.fill_all_events ["A.h5"] stOld).event_info_cache
      = stOld.event_info_cache ∧
    (∀ k ∈ dictKeys stOld.all_events,
      k ∈ dictKeys (EventsComponent.fill_all_events ["A.h5"] stOld).all_events) ∧
    (∀ f ∈ globH5 stOld.folder ["A.h5"],
      splitextRoot (basename f)
        ∈ dictKeys (EventsComponent.fill_all_events ["A.h5"] stOld).all_events) :=
  ⟨(C4_scan_adds_never_removes ["A.h5"] stOld).1,
   (C4_scan_adds_never_removes ["A.h5"] stOld).2.2.1,
   (C4_scan_adds_never_removes ["A.h5"] stOld).2.2.2⟩

/-- C5 counterexample: requesting initialization on a project whose
configuration file already exists does not leave the file unchanged; the
default configuration is written over it (with project name `True` when
the bare boolean flag is passed, not the documented default). -/
theorem C5_init_overwrites_config :
    (Project.project_init ⟨true, some (.custom "OLD")⟩ .pyTrue).1.config_file
      = some (.defaultConfig "True") ∧
    some (Project.ConfigContent.defaultConfig "True")
      ≠ some (Project.ConfigContent.custom "OLD") := by
  refine ⟨by decide, by decide⟩

/-- C5 amended: when initialization is requested the default
configuration file is always written, overwriting any existing one,
using `str(init_project)` as the project name (so `True` for the bare
flag; the `LASIFProject` fallback is dead code), and loading then
proceeds; when initialization is not requested the state is untouched
and loading fails with `LASIFError` exactly if no configuration file
exists. -/
theorem C5_init_semantics (st : Project.ProjState) (ip : Project.PyInitArg) :
    (ip.truthy = true →
      (Project.project_init st ip).1.config_file
        = some (.defaultConfig ip.pyStrOf) ∧
      (Project.project_init st ip).2 = .ok ()) ∧
    (ip.truthy = false →
      Project.project_init st ip
        = (st, if st.config_file.isNone then .error .lasifError
               else .ok ())) := by
  constructor
  · intro h
    by_cases hr : st.rootExists
      <;> simp [Project.project_init, Project.init_new_project, h, hr]
  · intro h
    by_cases hc : st.config_file.isNone
      <;> simp [Project.project_init, h, hc]

/-- C5 witness: the amended initialization semantics on a project with
an existing custom configuration file. -/
theorem C5_init_semantics_witness :
    Project.PyInitArg.truthy .pyTrue = true ∧
    (Project.project_init ⟨false, some (.custom "OLD")⟩ .pyTrue).1.config_file
      = some (.defaultConfig (Project.PyInitArg.pyStrOf .pyTrue)) ∧
    (Project.project_init ⟨false, some (.custom "OLD")⟩ .pyTrue).2 = .ok () :=
  ⟨by decide,
   ((C5_init_semantics ⟨false, some (.custom "OLD")⟩ .pyTrue).1 (by decide)).1,
   ((C5_init_semantics ⟨false, some (.custom "OLD")⟩ .pyTrue).1 (by decide)).2⟩

/-!  Counting lemma for a freshly scanned map. -/

theorem count_init_distinct (f : String) (fs : List String) :
    EventsComponent.count (EventsComponent.init f fs)
      = ((globH5 f fs).map (fun x => splitextRoot (basename x))).dedup.length := by
  have hmem : ∀ a, a ∈ dictKeys (EventsComponent.init f fs).all_events ↔
      a ∈ (globH5 f fs).map (fun x => splitextRoot (basename x)) := by
    intro a
    rw [mem_dictKeys]
    show (dictGet? ((globH5 f fs).foldl
        (fun m file => dictSet m (splitextRoot (basename file)) file) []) a).isSome
      ↔ a ∈ (globH5 f fs).map (fun x => splitextRoot (basename x))
    rw [foldl_scan_isSome_iff]
    simp [dictGet?]
  have hnd : (dictKeys (EventsComponent.init f fs).all_events).Nodup := by
    show (dictKeys ((globH5 f fs).foldl
        (fun m file => dictSet m (splitextRoot (basename file)) file) [])).Nodup
    exact nodup_keys_foldl_scan _ [] (by simp [dictKeys])
  have hfin : (dictKeys (EventsComponent.init f fs).all_events).toFinset
      = ((globH5 f fs).map (fun x => splitextRoot (basename x))).toFinset := by
    ext a
    rw [List.mem_toFinset, List.mem_toFinset, hmem]
  calc EventsComponent.count (EventsComponent.init f fs)
      = (dictKeys (EventsComponent.init f fs).all_events).length := by
        rw [EventsComponent.count, dictKeys, List.length_map]
    _ = (dictKeys (EventsComponent.init f fs).all_events).dedup.length := by
        rw [List.dedup_eq_self.mpr hnd]
    _ = (dictKeys (EventsComponent.init f fs).all_events).toFinset.card :=
        (List.card_toFinset _).symm
    _ = ((globH5 f fs).map (fun x => splitextRoot (basename x))).toFinset.card := by
        rw [hfin]
    _ = ((globH5 f fs).map (fun x => splitextRoot (basename x))).dedup.length :=
        List.card_toFinset _

/-- C7: `count` is the number of distinct keys in the key-to-file map
(its keys are distinct whenever they are, in particular always for
dict-built maps): it is unchanged by any number of `get` calls (which
never touch the map), and on a freshly constructed component it equals
the number of distinct keys derived from the files on disk. -/
theorem C7_count_from_key_map (extract : String → List PyVal) (st : EvState)
    (args : List EventArg) (f : String) (fs : List String)
    (h : (dictKeys st.all_events).Nodup) :
    (runGets extract st args).all_events = st.all_events ∧
    EventsComponent.count (runGets extract st args)
      = EventsComponent.count st ∧
    EventsComponent.count st = (dictKeys st.all_events).dedup.length ∧
    EventsComponent.count (EventsComponent.init f fs)
      = ((globH5 f fs).map (fun x => splitextRoot (basename x))).dedup.length := by
  refine ⟨runGets_all_events extract st args, ?_, ?_, count_init_distinct f fs⟩
  · rw [EventsComponent.count, EventsComponent.count,
      runGets_all_events extract st args]
  · rw [List.dedup_eq_self.mpr h, EventsComponent.count, dictKeys,
      List.length_map]

/-- C7 witness: two files, two parses; `count` stays 2 and equals the
number of distinct keys on disk. -/
theorem C7_count_from_key_map_witness :
    (dictKeys stAB.all_events).Nodup ∧
    EventsComponent.count (runGets goodExtract stAB
      [.name "A", .name "B", .name "A"]) = EventsComponent.count stAB ∧
    EventsComponent.count stAB = (dictKeys stAB.all_events).dedup.length ∧
    EventsComponent.count (EventsComponent.init "F" ["A.h5", "B.h5"])
      = ((globH5 "F" ["A.h5", "B.h5"]).map
          (fun x => splitextRoot (basename x))).dedup.length :=
  ⟨by decide,
   (C7_count_from_key_map goodExtract stAB [.name "A", .name "B", .name "A"]
     "F" ["A.h5", "B.h5"] (by decide)).2.1,
   (C7_count_from_key_map goodExtract stAB [.name "A", .name "B", .name "A"]
     "F" ["A.h5", "B.h5"] (by decide)).2.2.1,
   (C7_count_from_key_map goodExtract stAB [.name "A", .name "B", .name "A"]
     "F" ["A.h5", "B.h5"] (by decide)).2.2.2⟩
